import Mathlib

/-!
Shallow embedding of the raweml thread codec (thread.go): the Outlook/MAPI
conversation-index token.  Go byte strings are modelled as `List ℕ` with
entries below 256, Go `uint64`/`int64`/`uint32`/`byte` arithmetic is modelled
on `ℕ`/`ℤ` with explicit `% 2^w` reductions and two's-complement casts, and
Go panics are modelled as explicit result constructors.
-/

namespace Raweml

/-- Two's-complement reinterpretation of a 64-bit pattern as a Go `int64`. -/
def toInt64 (x : ℕ) : ℤ :=
  if x < 2 ^ 63 then (x : ℤ) else (x : ℤ) - 2 ^ 64

/-- Go conversion of an `int64` value to `uint64` (two's complement). -/
def toUInt64 (x : ℤ) : ℕ :=
  (x % 2 ^ 64).toNat

/-- Go `binary.BigEndian.Uint32` over four bytes. -/
def beUint32 (b0 b1 b2 b3 : ℕ) : ℕ :=
  b0 * 2 ^ 24 + b1 * 2 ^ 16 + b2 * 2 ^ 8 + b3

/-- Go `binary.BigEndian.Uint64` over an 8-byte slice. -/
def beUint64 (bytes : List ℕ) : ℕ :=
  bytes.foldl (fun acc b => acc * 256 + b) 0

/-- Big-endian 8-byte encoding of a 64-bit value, as written by
`binary.Write(buff, binary.BigEndian, num)`. -/
def be8 (n : ℕ) : List ℕ :=
  [n / 2 ^ 56 % 256, n / 2 ^ 48 % 256, n / 2 ^ 40 % 256, n / 2 ^ 32 % 256,
   n / 2 ^ 24 % 256, n / 2 ^ 16 % 256, n / 2 ^ 8 % 256, n % 256]

/-- Go `IntToBytes`: big-endian bytes of an `int64` (two's complement). -/
def IntToBytes (num : ℤ) : List ℕ :=
  be8 (toUInt64 num)

/-- Go `TimeStampToUnix`: `(timeStampTicks - 116444736000000000) * 100` in
wrapping `uint64` arithmetic (`timeStampTicks < 2^64`). -/
def TimeStampToUnix (timeStampTicks : ℕ) : ℕ :=
  (timeStampTicks + 2 ^ 64 - 116444736000000000) % 2 ^ 64 * 100 % 2 ^ 64

/-- Go `UnixToTimeStamp64`: `unixNanosecond/100 + 116444736000000000` on
`int64`; Go division truncates toward zero (`Int.tdiv`), and the addition
cannot overflow `int64` for any `int64` input, so no wrap is modelled. -/
def UnixToTimeStamp64 (unixNanosecond : ℤ) : ℤ :=
  Int.tdiv unixNanosecond 100 + 116444736000000000

/-- Go `ChildBlock` record. The `byte`-typed fields `RandomNum` and
`SequenceCount` are modelled as `ℕ`, reduced `% 256` where the code performs
byte arithmetic on them. -/
structure ChildBlock where
  TimeFlag : Bool
  TimeDifference : ℤ
  RandomNum : ℕ
  SequenceCount : ℕ
deriving DecidableEq

/-- TimeFlag policy of Go `NewChildBlock`.  The source compares
`deltaDuration.Seconds()` and a years figure derived from
`deltaDuration.Hours()` as `float64`; the comparisons are modelled by the
exact integer thresholds in nanoseconds (0.02 s = 2*10^7 ns, 1 s = 10^9 ns,
2 years = 63072000000000000 ns, 56 years = 1766016000000000000 ns). -/
def newChildBlockTimeFlag (deltaTimeUxNs : ℤ) : Bool :=
  if deltaTimeUxNs ≤ 20000000 ∨ 63072000000000000 < deltaTimeUxNs then
    false
  else if deltaTimeUxNs ≤ 1000000000 ∨ 1766016000000000000 < deltaTimeUxNs then
    true
  else
    false

/-- Go `NewChildBlock`.  The random number drawn from the process-wide
generator (`byte(rand.Intn(15))`) is passed explicitly. -/
def NewChildBlock (deltaTimeUxNs : ℤ) (randomNum : ℕ) : ChildBlock :=
  ⟨newChildBlockTimeFlag deltaTimeUxNs, deltaTimeUxNs, randomNum, 0⟩

/-- Result of Go `ParseChildBlock`: a returned block, a returned `error`, or a
runtime panic (out-of-range indexing). -/
inductive BlockResult where
  | ok (b : ChildBlock)
  | err (msg : String)
  | panicked (msg : String)
deriving DecidableEq

/-- Go `ParseChildBlock`.  The source guard is
`len(blockString) < 0 || len(blockString) > 5`; a `ℕ` length is never below
zero, so only the upper test remains.  For lengths 0-4 the subsequent
`bytes[0]`, `bytes[:4]` or `bytes[4]` accesses panic. -/
def ParseChildBlock (blockString : List ℕ) : BlockResult :=
  if 5 < blockString.length then
    .err "Block string is too short/long!"
  else
    match blockString with
    | [b0, b1, b2, b3, b4] =>
      let timeFlag : Bool := 0 < b0 &&& 0x80
      let dWord := beUint32 b0 b1 b2 b3 &&& 0x7fffffff
      let qWord := if timeFlag then dWord <<< 23 else dWord <<< 18
      let tsDiff : ℤ := toInt64 (qWord * 100 % 2 ^ 64)
      .ok ⟨timeFlag, tsDiff, (b4 &&& 0xF0) >>> 4, b4 &&& 0x0F⟩
    | _ => .panicked "runtime error: index out of range"

/-- Go `ChildBlock.Bytes`: the 5-byte wire encoding, or the empty sequence
when `TimeDifference` is exactly zero. -/
def ChildBlock.Bytes (block : ChildBlock) : List ℕ :=
  if block.TimeDifference = 0 then
    []
  else
    let tsDiff0 : ℕ := toUInt64 (Int.tdiv block.TimeDifference 100)
    let tsDiff1 : ℕ :=
      if block.TimeFlag then ((tsDiff0 <<< 10) % 2 ^ 64) >>> (10 + 23)
      else ((tsDiff0 <<< 15) % 2 ^ 64) >>> (15 + 18)
    let tsDiff2 : ℕ := if block.TimeFlag then tsDiff1 ||| 0x80000000 else tsDiff1
    let word : ℕ := tsDiff2 % 2 ^ 32
    [word >>> 24 % 256, word >>> 16 % 256, word >>> 8 % 256, word % 256,
     (block.RandomNum % 256) <<< 4 % 256 ||| block.SequenceCount % 256]

/-- The 31-bit quantized tick value stored in a block's wire encoding: the
64-bit tick count with its high 10 and low 23 bits discarded (flag set), or
its high 15 and low 18 bits discarded (flag clear). -/
def ChildBlock.quantTicks (block : ChildBlock) : ℕ :=
  if block.TimeFlag then
    ((toUInt64 (Int.tdiv block.TimeDifference 100) <<< 10) % 2 ^ 64) >>> 33
  else
    ((toUInt64 (Int.tdiv block.TimeDifference 100) <<< 15) % 2 ^ 64) >>> 33

/-- The 32-bit word formed by the flag bit and the 31-bit quantized ticks. -/
def ChildBlock.word (block : ChildBlock) : ℕ :=
  if block.TimeFlag then 2 ^ 31 + block.quantTicks else block.quantTicks

/-- The quantized time value of a block rescaled to nanoseconds: the 31-bit
quantized ticks shifted back up by the discarded low-bit count (23 with the
flag set, 18 with it clear) and multiplied by 100. -/
def ChildBlock.quantized (block : ChildBlock) : ℤ :=
  ((if block.TimeFlag then block.quantTicks <<< 23 else block.quantTicks <<< 18) * 100 : ℕ)

/-- Standard base64 alphabet (RFC 4648), as used by Go
`base64.StdEncoding`: maps a 6-bit value to an ASCII code. -/
def b64Char (n : ℕ) : ℕ :=
  if n < 26 then 65 + n
  else if n < 52 then 97 + (n - 26)
  else if n < 62 then 48 + (n - 52)
  else if n = 62 then 43
  else 47

/-- Inverse alphabet lookup: ASCII code to 6-bit value, `none` for characters
outside the standard alphabet (including the pad character 61). -/
def b64Val (c : ℕ) : Option ℕ :=
  if 65 ≤ c ∧ c ≤ 90 then some (c - 65)
  else if 97 ≤ c ∧ c ≤ 122 then some (c - 97 + 26)
  else if 48 ≤ c ∧ c ≤ 57 then some (c - 48 + 52)
  else if c = 43 then some 62
  else if c = 47 then some 63
  else none

/-- Go `base64.StdEncoding` encoding (standard alphabet, padded with `=`,
ASCII 61) of a byte sequence, three input bytes per four output characters. -/
def encodeBase64 : List ℕ → List ℕ
  | [] => []
  | [a] =>
    let n := a * 65536
    [b64Char (n / 2 ^ 18), b64Char (n / 2 ^ 12 % 64), 61, 61]
  | [a, b] =>
    let n := a * 65536 + b * 256
    [b64Char (n / 2 ^ 18), b64Char (n / 2 ^ 12 % 64), b64Char (n / 2 ^ 6 % 64), 61]
  | a :: b :: c :: rest =>
    let n := a * 65536 + b * 256 + c
    b64Char (n / 2 ^ 18) :: b64Char (n / 2 ^ 12 % 64) :: b64Char (n / 2 ^ 6 % 64) ::
      b64Char (n % 64) :: encodeBase64 rest

/-- Go `base64.StdEncoding.DecodeString`: rejects input whose length is not a
multiple of four, characters outside the alphabet, and padding anywhere but
the final quad; unused trailing bits are ignored, as in Go's default
(non-strict) decoder. -/
def decodeBase64 : List ℕ → Option (List ℕ)
  | [] => some []
  | c0 :: c1 :: c2 :: c3 :: rest =>
    if c2 = 61 ∧ c3 = 61 ∧ rest = [] then
      match b64Val c0, b64Val c1 with
      | some v0, some v1 => some [v0 * 4 + v1 / 16]
      | _, _ => none
    else if c3 = 61 ∧ rest = [] then
      match b64Val c0, b64Val c1, b64Val c2 with
      | some v0, some v1, some v2 =>
        let n := v0 * 2 ^ 18 + v1 * 2 ^ 12 + v2 * 2 ^ 6
        some [n / 65536, n / 256 % 256]
      | _, _, _ => none
    else
      match b64Val c0, b64Val c1, b64Val c2, b64Val c3, decodeBase64 rest with
      | some v0, some v1, some v2, some v3, some bs =>
        let n := v0 * 2 ^ 18 + v1 * 2 ^ 12 + v2 * 2 ^ 6 + v3
        some ((n / 65536) :: (n / 256 % 256) :: (n % 256) :: bs)
      | _, _, _, _, _ => none
  | _ => none

/-- Go `Thread` record.  The `uuid.UUID` field is modelled as its 16-byte
`MarshalBinary` image. -/
structure Thread where
  DateUnixNano : ℤ
  guid : List ℕ
  topic : String
  ChildBlocks : List ChildBlock
deriving DecidableEq

/-- Go `NewEmailThreadFromParams`. -/
def NewEmailThreadFromParams (dateUnixNanoSec : ℤ) (guid : List ℕ)
    (topic : String) (childBlocks : List ChildBlock) : Thread :=
  ⟨dateUnixNanoSec, guid, topic, childBlocks⟩

/-- Payload written through the base64 encoder by Go `Thread.Bytes`: the high
6 bytes of the big-endian timestamp, the 16 guid bytes, then each child
block's encoding. -/
def Thread.payload (thread : Thread) : List ℕ :=
  (IntToBytes (UnixToTimeStamp64 thread.DateUnixNano)).take 6
    ++ thread.guid
    ++ (thread.ChildBlocks.map ChildBlock.Bytes).flatten

/-- Go `Thread.Bytes`: the base64 wire token of the thread. -/
def Thread.Bytes (thread : Thread) : List ℕ :=
  encodeBase64 thread.payload

/-- Result of Go `ParseEmailThread`: a returned thread, or a panic (the
function has no error return; every failure path calls `panic`). -/
inductive ThreadResult where
  | ok (t : Thread)
  | panicked (msg : String)
deriving DecidableEq

/-- Child-block loop of Go `ParseEmailThread`:
`for i := 22; i < len(bytes) && i < (22+500*5); i += 5` reading
`bytes[i : i+5]`.  Here `k` counts blocks already read (`i = 22 + 5*k`) and
`rest` is `bytes[22+5*k:]`.  A Go slice expression `bytes[i : i+5]` is
bounded by the buffer's *capacity*, not its length: `DecodeString` returns
`dbuf[:n]` over an allocation of `DecodedLen(len(token)) = len(token)/4*3`
bytes, so `slack` (= capacity minus decoded length, one byte per `=` padding
character) zero-valued bytes past the end remain readable.  A final partial
chunk of `r` bytes is therefore read — extended with `5 - r` zero bytes —
whenever `r + slack ≥ 5`, and only a slice reaching past the capacity
panics; a child-block parse error also panics.  Panics are propagated as
`Except.error`. -/
def parseChildBlocks (slack k : ℕ) (rest : List ℕ) : Except String (List ChildBlock) :=
  if rest = [] ∨ 500 ≤ k then
    .ok []
  else if 5 ≤ rest.length then
    match ParseChildBlock (rest.take 5) with
    | .ok b =>
      match parseChildBlocks slack (k + 1) (rest.drop 5) with
      | .ok bs => .ok (b :: bs)
      | .error e => .error e
    | .err m => .error m
    | .panicked m => .error m
  else if 5 ≤ rest.length + slack then
    match ParseChildBlock (rest ++ List.replicate (5 - rest.length) 0) with
    | .ok b =>
      match parseChildBlocks slack (k + 1) (rest.drop 5) with
      | .ok bs => .ok (b :: bs)
      | .error e => .error e
    | .err m => .error m
    | .panicked m => .error m
  else
    .error "runtime error: slice bounds out of range"
termination_by rest.length
decreasing_by
  · simp only [List.length_drop]
    omega
  · simp only [List.length_drop]
    have : rest ≠ [] := by tauto
    have : rest.length ≠ 0 := by simpa [List.length_eq_zero]
    omega

/-- Go `ParseEmailThread`.  All failure paths panic: the explicit minimum
length check, base64 decode failure, the `bytes[:6]` and `bytes[6:22]`
slices when the decoded buffer is too short (`uuid.FromBytes` itself cannot
fail on a 16-byte slice), and any child-block failure.
The decoded buffer's capacity is `DecodedLen(len(idx)) = len(idx)/4*3`,
which exceeds its length by the padding count; the child-block loop may
read into that zero-valued slack (see `parseChildBlocks`).
`time.Unix(0, int64(uxNs)).UTC().UnixNano()` is the identity on the `int64`
reinterpretation of `uxNs`. -/
def ParseEmailThread (idx : List ℕ) (topic : String) : ThreadResult :=
  if idx.length < 22 then
    .panicked "Inavlid Thread-Index. Expected minimum 22 bytes."
  else
    match decodeBase64 idx with
    | none => .panicked "illegal base64 data"
    | some bytes =>
      if bytes.length < 6 then
        .panicked "runtime error: slice bounds out of range"
      else
        let uxNs := TimeStampToUnix (beUint64 (bytes.take 6 ++ [0, 0]))
        let threadTimeUnixNano : ℤ := toInt64 uxNs
        if bytes.length < 22 then
          .panicked "runtime error: slice bounds out of range"
        else
          let threadGuid := (bytes.drop 6).take 16
          match parseChildBlocks (idx.length / 4 * 3 - bytes.length) 0 (bytes.drop 22) with
          | .error m => .panicked m
          | .ok childBlocks => .ok ⟨threadTimeUnixNano, threadGuid, topic, childBlocks⟩

/-! ## Helper lemmas -/

theorem natCast_tdiv (n m : ℕ) : Int.tdiv (n : ℤ) (m : ℤ) = ((n / m : ℕ) : ℤ) := rfl

theorem toInt64_of_lt {x : ℕ} (h : x < 2 ^ 63) : toInt64 x = (x : ℤ) := by
  unfold toInt64
  rw [if_pos h]

theorem toUInt64_natCast {t : ℕ} (h : t < 2 ^ 64) : toUInt64 (t : ℤ) = t := by
  simp only [toUInt64]
  rw [Int.emod_eq_of_lt (by positivity) (by exact_mod_cast h)]
  exact Int.toNat_natCast t

theorem timeStampToUnix_eq {t : ℕ} (h1 : 116444736000000000 ≤ t)
    (h2 : (t - 116444736000000000) * 100 < 2 ^ 64) (h3 : t < 2 ^ 64) :
    TimeStampToUnix t = (t - 116444736000000000) * 100 := by
  unfold TimeStampToUnix
  have he : (t + 2 ^ 64 - 116444736000000000) % 2 ^ 64 = t - 116444736000000000 := by
    omega
  rw [he, Nat.mod_eq_of_lt h2]

/-! ## C6: concrete tick-to-Unix conversion vector -/

/-- C6 counterexample: the tick value `130016196641685504` does not convert
to `1357146064000000000` Unix nanoseconds. -/
theorem timeStampToUnix_vector_cex :
    TimeStampToUnix 130016196641685504 ≠ 1357146064000000000 := by decide

/-- C6 (amended): the tick value `130016196641685504` converts to exactly
`1357146064168550400` Unix nanoseconds (2013-01-02T17:01:04.1685504Z); the
0.1685504 s fractional part is not dropped by the conversion. -/
theorem timeStampToUnix_vector :
    TimeStampToUnix 130016196641685504 = 1357146064168550400 := by decide

/-! ## C2: TimeFlag selection policy -/

/-- C2 counterexample: the elapsed duration 500000000 ns (0.5 s) is at most
one second and does not exceed 56 years, yet the constructed block has
`TimeFlag = true`, contradicting the claim that `TimeFlag` is false for
every such duration. -/
theorem newChildBlock_timeFlag_cex :
    (NewChildBlock 500000000 0).TimeFlag = true ∧
      (500000000 : ℤ) ≤ 1000000000 ∧
      ¬(1766016000000000000 : ℤ) < 500000000 := by decide

/-- C2 (amended): `TimeFlag` is false by default and is set true exactly when
the elapsed duration lies in (0.02 s, 1 s]: the two conditions of the second
branch are combined with OR (not AND), the branch is guarded by the negation
of the first branch's OR, and under that guard the 56-year disjunct can never
hold, so it is unreachable. -/
theorem newChildBlock_timeFlag_iff (d : ℤ) (rnd : ℕ) :
    (NewChildBlock d rnd).TimeFlag = true ↔ 20000000 < d ∧ d ≤ 1000000000 := by
  simp only [NewChildBlock, newChildBlockTimeFlag]
  split_ifs with h1 h2 <;> simp <;> omega

/-! ## C8: tick/Unix conversion round trip -/

/-- C8: for every tick value at or above the 1601 epoch constant whose
converted value fits `int64`, converting tick → Unix ns → tick → Unix ns
reproduces the first conversion exactly, and the converted value is a
multiple of 100 ns. -/
theorem timeStamp_roundTrip (t : ℕ) (h1 : 116444736000000000 ≤ t)
    (h2 : (t - 116444736000000000) * 100 < 2 ^ 63) :
    TimeStampToUnix (toUInt64 (UnixToTimeStamp64 (toInt64 (TimeStampToUnix t)))) =
      TimeStampToUnix t ∧ 100 ∣ TimeStampToUnix t := by
  have h3 : t < 2 ^ 64 := by omega
  have hval : TimeStampToUnix t = (t - 116444736000000000) * 100 :=
    timeStampToUnix_eq h1 (by omega) h3
  have hti : toInt64 (TimeStampToUnix t) = ((t - 116444736000000000) * 100 : ℕ) := by
    rw [hval]; exact toInt64_of_lt (by omega)
  have hts : UnixToTimeStamp64 (toInt64 (TimeStampToUnix t)) = (t : ℤ) := by
    rw [hti]
    unfold UnixToTimeStamp64
    rw [show (100 : ℤ) = ((100 : ℕ) : ℤ) from rfl, natCast_tdiv]
    have : (t - 116444736000000000) * 100 / 100 = t - 116444736000000000 := by omega
    rw [this]
    push_cast [h1]
    omega
  rw [hts, toUInt64_natCast h3]
  exact ⟨rfl, ⟨t - 116444736000000000, by rw [hval]; ring⟩⟩

/-- C8 witness at the repository's own tick vector. -/
theorem timeStamp_roundTrip_witness :
    TimeStampToUnix
        (toUInt64 (UnixToTimeStamp64 (toInt64 (TimeStampToUnix 130016196641685504)))) =
      TimeStampToUnix 130016196641685504 ∧
      100 ∣ TimeStampToUnix 130016196641685504 :=
  timeStamp_roundTrip 130016196641685504 (by norm_num) (by norm_num)

/-! ## C9: empty encoding exactly for zero TimeDifference -/

/-- C9: a child block encodes to the empty byte sequence exactly when its
`TimeDifference` is zero, and to exactly 5 bytes otherwise. -/
theorem childBlock_bytes_empty_iff (b : ChildBlock) :
    (b.Bytes = [] ↔ b.TimeDifference = 0) ∧
      (b.TimeDifference ≠ 0 → b.Bytes.length = 5) := by
  constructor
  · unfold ChildBlock.Bytes
    split_ifs with h
    · simpa using h
    · simp [h]
  · intro h
    unfold ChildBlock.Bytes
    rw [if_neg h]
    rfl

/-- C9 witness: a block with non-zero `TimeDifference` encodes to 5 bytes. -/
theorem childBlock_bytes_empty_iff_witness :
    (ChildBlock.mk false 100 0 0).Bytes.length = 5 :=
  (childBlock_bytes_empty_iff ⟨false, 100, 0, 0⟩).2 (by decide)

/-! ## C4: ParseChildBlock input-length behaviour -/

/-- C4 counterexample: the empty input has byte length 0, inside the claimed
accepted range [0, 5], yet `ParseChildBlock` panics on it instead of
returning a block without error. -/
theorem parseChildBlock_cex :
    ParseChildBlock [] = .panicked "runtime error: index out of range" := rfl

/-- C4 (amended): `ParseChildBlock` fails with the size-mismatch error
exactly when the input's byte length exceeds 5; an input of length exactly 5
is accepted without content validation; inputs of length 0 to 4 crash with
an out-of-range runtime panic (the code's lower-bound check compares the
length against 0, which never fires). -/
theorem parseChildBlock_by_length (s : List ℕ) :
    (5 < s.length → ParseChildBlock s = .err "Block string is too short/long!") ∧
    (s.length = 5 → ∃ b, ParseChildBlock s = BlockResult.ok b) ∧
    (s.length < 5 →
      ParseChildBlock s = .panicked "runtime error: index out of range") := by
  refine ⟨fun h => ?_, fun h => ?_, fun h => ?_⟩
  · simp only [ParseChildBlock, if_pos h]
  · rcases s with _ | ⟨a, _ | ⟨b, _ | ⟨c, _ | ⟨d, _ | ⟨e, _ | ⟨f, s⟩⟩⟩⟩⟩⟩ <;>
      simp_all [ParseChildBlock]
  · rcases s with _ | ⟨a, _ | ⟨b, _ | ⟨c, _ | ⟨d, _ | ⟨e, _ | ⟨f, s⟩⟩⟩⟩⟩⟩ <;>
      first
        | rfl
        | (simp only [List.length_cons] at h; omega)

/-- C4 witness: a length-0 input panics and a length-5 input is accepted. -/
theorem parseChildBlock_by_length_witness :
    ParseChildBlock [] = .panicked "runtime error: index out of range" ∧
      ∃ b, ParseChildBlock [0, 0, 1, 0, 0] = BlockResult.ok b :=
  ⟨(parseChildBlock_by_length []).2.2 (by decide),
    (parseChildBlock_by_length [0, 0, 1, 0, 0]).2.1 rfl⟩

/-! ## Bit-level helper lemmas for the child-block codec -/

theorem toUInt64_lt (x : ℤ) : toUInt64 x < 2 ^ 64 := by
  have h := Int.emod_lt_of_pos x (show (0 : ℤ) < 2 ^ 64 by positivity)
  simp only [toUInt64]
  omega

theorem and_mask31 (n : ℕ) : n &&& 0x7fffffff = n % 2 ^ 31 := by
  have h := Nat.and_pow_two_sub_one_eq_mod n 31
  norm_num at h ⊢
  exact h

theorem and_mask15 (n : ℕ) : n &&& 0x0F = n % 16 := by
  have h := Nat.and_pow_two_sub_one_eq_mod n 4
  norm_num at h ⊢
  exact h

theorem and240_shift (b : ℕ) : (b &&& 0xF0) >>> 4 = b / 16 % 16 := by
  have hmain : (b &&& 0xF0) >>> 4 = b >>> 4 &&& 0x0F := by
    apply Nat.eq_of_testBit_eq
    intro i
    simp only [Nat.testBit_shiftRight, Nat.testBit_and]
    have ht : Nat.testBit 0xF0 (4 + i) = Nat.testBit 0x0F i := by
      simp only [Nat.testBit_to_div_mod]
      have hd : (0xF0 : ℕ) / 2 ^ (4 + i) = 0x0F / 2 ^ i := by
        rw [pow_add, ← Nat.div_div_eq_div_mul]
        norm_num
      rw [hd]
    rw [ht]
  rw [hmain, and_mask15, Nat.shiftRight_eq_div_pow]

theorem and128_eq (b : ℕ) (hb : b < 256) : b &&& 0x80 = if 128 ≤ b then 128 else 0 := by
  rw [show (0x80 : ℕ) = 2 ^ 7 from rfl, Nat.and_two_pow, Nat.testBit_to_div_mod]
  norm_num
  by_cases hc : b / 128 % 2 = 1
  · rw [if_pos (by omega)]
    simp [hc]
  · rw [if_neg (by omega)]
    simp [hc]

theorem shiftLeft4_or (r s : ℕ) (hs : s < 16) : r <<< 4 ||| s = 16 * r + s := by
  have h := Nat.mul_add_lt_is_or (show s < 2 ^ 4 by omega) r
  rw [Nat.shiftLeft_eq, mul_comm, ← h]

theorem byte4_ops (b : ℕ) (hb : b < 256) :
    (b &&& 0xF0) >>> 4 < 16 ∧ b &&& 0x0F < 16 ∧
      ((((b &&& 0xF0) >>> 4) % 256) <<< 4) % 256 ||| (b &&& 0x0F) % 256 = b := by
  rw [and240_shift, and_mask15]
  refine ⟨by omega, by omega, ?_⟩
  rw [Nat.mod_eq_of_lt (show b / 16 % 16 < 256 by omega),
    Nat.mod_eq_of_lt (show b % 16 < 256 by omega),
    Nat.mod_eq_of_lt (show (b / 16 % 16) <<< 4 < 256 by rw [Nat.shiftLeft_eq]; omega),
    shiftLeft4_or _ _ (by omega)]
  omega

theorem nibbles (r s : ℕ) (hr : r < 16) (hs : s < 16) :
    ((16 * r + s) &&& 0xF0) >>> 4 = r ∧ (16 * r + s) &&& 0x0F = s := by
  rw [and240_shift, and_mask15]
  omega

theorem byte4_pack (r s : ℕ) (hr : r < 16) (hs : s < 16) :
    ((r % 256) <<< 4) % 256 ||| s % 256 = 16 * r + s := by
  rw [Nat.mod_eq_of_lt (show r < 256 by omega), Nat.mod_eq_of_lt (show s < 256 by omega),
    Nat.mod_eq_of_lt (show r <<< 4 < 256 by rw [Nat.shiftLeft_eq]; omega),
    shiftLeft4_or _ _ hs]

theorem or_two_pow_31 {w : ℕ} (hw : w < 2 ^ 31) : w ||| 0x80000000 = 2 ^ 31 + w := by
  have h := Nat.mul_add_lt_is_or hw 1
  rw [Nat.mul_one] at h
  rw [show (0x80000000 : ℕ) = 2 ^ 31 from rfl, Nat.or_comm]
  exact h.symm

theorem beUint32_digits {w : ℕ} (h : w < 2 ^ 32) :
    beUint32 (w >>> 24 % 256) (w >>> 16 % 256) (w >>> 8 % 256) (w % 256) = w := by
  simp only [beUint32, Nat.shiftRight_eq_div_pow]
  omega

theorem quantTicks_lt (b : ChildBlock) : b.quantTicks < 2 ^ 31 := by
  have key : ∀ y : ℕ, (y % 2 ^ 64) >>> 33 < 2 ^ 31 := by
    intro y
    rw [Nat.shiftRight_eq_div_pow]
    omega
  unfold ChildBlock.quantTicks
  split_ifs <;> exact key _

theorem word_lt (b : ChildBlock) : b.word < 2 ^ 32 := by
  have h := quantTicks_lt b
  unfold ChildBlock.word
  split_ifs <;> omega

/-- Definitional reduction of `ParseChildBlock` on a 5-byte input. -/
theorem parseChildBlock_five (b0 b1 b2 b3 b4 : ℕ) :
    ParseChildBlock [b0, b1, b2, b3, b4] =
      .ok ⟨0 < b0 &&& 0x80,
        toInt64 ((if (0 < b0 &&& 0x80 : Bool) then (beUint32 b0 b1 b2 b3 &&& 0x7fffffff) <<< 23
                  else (beUint32 b0 b1 b2 b3 &&& 0x7fffffff) <<< 18) * 100 % 2 ^ 64),
        (b4 &&& 0xF0) >>> 4, b4 &&& 0x0F⟩ := rfl

/-- The 5-byte wire form of a block with non-zero `TimeDifference`, expressed
through the flag-and-ticks word. -/
theorem childBlock_bytes_form (b : ChildBlock) (htd : b.TimeDifference ≠ 0) :
    b.Bytes = [b.word >>> 24 % 256, b.word >>> 16 % 256, b.word >>> 8 % 256, b.word % 256,
      ((b.RandomNum % 256) <<< 4) % 256 ||| b.SequenceCount % 256] := by
  obtain ⟨tf, td, r, s⟩ := b
  have hqt := quantTicks_lt ⟨tf, td, r, s⟩
  simp only [ChildBlock.quantTicks] at hqt
  simp only [ChildBlock.Bytes, ChildBlock.word, ChildBlock.quantTicks]
  rw [if_neg htd]
  cases tf
  · simp only [Bool.false_eq_true, if_false] at hqt ⊢
    rw [Nat.mod_eq_of_lt (show ((toUInt64 (Int.tdiv td 100) <<< 15) % 2 ^ 64) >>> (15 + 18)
        < 2 ^ 32 by norm_num at hqt ⊢; omega)]
  · simp only [if_true] at hqt ⊢
    rw [or_two_pow_31 (by norm_num at hqt ⊢; omega)]
    rw [Nat.mod_eq_of_lt (show 2 ^ 31 + ((toUInt64 (Int.tdiv td 100) <<< 10) % 2 ^ 64) >>> (10 + 23)
        < 2 ^ 32 by norm_num at hqt ⊢; omega)]

/-- Core parse computation on the digit form of a 32-bit word: flag bit set
(first statement) and flag bit clear (second statement). -/
theorem parseChildBlock_word_flag (w b4 : ℕ) (hw : w < 2 ^ 31) :
    (ParseChildBlock [(2 ^ 31 + w) >>> 24 % 256, (2 ^ 31 + w) >>> 16 % 256,
        (2 ^ 31 + w) >>> 8 % 256, (2 ^ 31 + w) % 256, b4] =
      .ok ⟨true, (w : ℤ) * 2 ^ 23 * 100, (b4 &&& 0xF0) >>> 4, b4 &&& 0x0F⟩) ∧
    (ParseChildBlock [w >>> 24 % 256, w >>> 16 % 256, w >>> 8 % 256, w % 256, b4] =
      .ok ⟨false, (w : ℤ) * 2 ^ 18 * 100, (b4 &&& 0xF0) >>> 4, b4 &&& 0x0F⟩) := by
  constructor
  · rw [parseChildBlock_five]
    have hb0 : (2 ^ 31 + w) >>> 24 % 256 = 128 + w / 2 ^ 24 := by
      rw [Nat.shiftRight_eq_div_pow]
      omega
    have hand : (2 ^ 31 + w) >>> 24 % 256 &&& 0x80 = 128 := by
      rw [hb0, and128_eq _ (by omega), if_pos (by omega)]
    have hdig := beUint32_digits (show 2 ^ 31 + w < 2 ^ 32 by omega)
    have hmask : (2 ^ 31 + w) &&& 0x7fffffff = w := by
      rw [and_mask31]
      omega
    have hlt : (w <<< 23) * 100 < 2 ^ 63 := by
      rw [Nat.shiftLeft_eq]
      omega
    rw [hand, hdig, hmask]
    norm_num
    rw [Nat.mod_eq_of_lt (by omega), toInt64_of_lt (by omega), Nat.shiftLeft_eq]
    push_cast
    ring
  · rw [parseChildBlock_five]
    have hb0 : w >>> 24 % 256 = w / 2 ^ 24 := by
      rw [Nat.shiftRight_eq_div_pow]
      omega
    have hand : w >>> 24 % 256 &&& 0x80 = 0 := by
      rw [hb0, and128_eq _ (by omega), if_neg (by omega)]
    have hdig := beUint32_digits (show w < 2 ^ 32 by omega)
    have hmask : w &&& 0x7fffffff = w := by
      rw [and_mask31]
      omega
    have hlt : (w <<< 18) * 100 < 2 ^ 63 := by
      rw [Nat.shiftLeft_eq]
      omega
    rw [hand, hdig, hmask]
    norm_num
    rw [Nat.mod_eq_of_lt (by omega), toInt64_of_lt (by omega), Nat.shiftLeft_eq]
    push_cast
    ring

theorem quantTicks_true (w r s : ℕ) (hw : w < 2 ^ 31) :
    ChildBlock.quantTicks ⟨true, (w : ℤ) * 2 ^ 23 * 100, r, s⟩ = w := by
  unfold ChildBlock.quantTicks
  split_ifs with h
  · have h1 : ((w : ℤ) * 2 ^ 23 * 100).tdiv 100 = (w : ℤ) * 2 ^ 23 :=
      Int.mul_tdiv_cancel _ (by norm_num)
    rw [h1, show ((w : ℤ) * 2 ^ 23) = ((w * 2 ^ 23 : ℕ) : ℤ) by push_cast; ring,
      toUInt64_natCast (by omega), Nat.shiftLeft_eq, Nat.shiftRight_eq_div_pow]
    omega
  · exact absurd rfl h

theorem quantTicks_false (w r s : ℕ) (hw : w < 2 ^ 31) :
    ChildBlock.quantTicks ⟨false, (w : ℤ) * 2 ^ 18 * 100, r, s⟩ = w := by
  unfold ChildBlock.quantTicks
  rw [if_neg (by simp)]
  have h1 : ((w : ℤ) * 2 ^ 18 * 100).tdiv 100 = (w : ℤ) * 2 ^ 18 :=
      Int.mul_tdiv_cancel _ (by norm_num)
  rw [h1, show ((w : ℤ) * 2 ^ 18) = ((w * 2 ^ 18 : ℕ) : ℤ) by push_cast; ring,
    toUInt64_natCast (by omega), Nat.shiftLeft_eq, Nat.shiftRight_eq_div_pow]
  omega

theorem bytes_of_parsed_true (w b4 : ℕ) (hw : w < 2 ^ 31) (hw0 : w ≠ 0) (hb4 : b4 < 256) :
    ChildBlock.Bytes ⟨true, (w : ℤ) * 2 ^ 23 * 100, (b4 &&& 0xF0) >>> 4, b4 &&& 0x0F⟩ =
      [(2 ^ 31 + w) >>> 24 % 256, (2 ^ 31 + w) >>> 16 % 256, (2 ^ 31 + w) >>> 8 % 256,
       (2 ^ 31 + w) % 256, b4] := by
  have hwpos : (0 : ℤ) < (w : ℤ) := by
    exact_mod_cast Nat.pos_of_ne_zero hw0
  have htd : (w : ℤ) * 2 ^ 23 * 100 ≠ 0 := by
    positivity
  rw [childBlock_bytes_form _ htd]
  have hword :
      ChildBlock.word ⟨true, (w : ℤ) * 2 ^ 23 * 100, (b4 &&& 0xF0) >>> 4, b4 &&& 0x0F⟩ =
        2 ^ 31 + w := by
    unfold ChildBlock.word
    split_ifs with h
    · rw [quantTicks_true _ _ _ hw]
    · exact absurd rfl h
  rw [hword, (byte4_ops b4 hb4).2.2]

theorem bytes_of_parsed_false (w b4 : ℕ) (hw : w < 2 ^ 31) (hw0 : w ≠ 0) (hb4 : b4 < 256) :
    ChildBlock.Bytes ⟨false, (w : ℤ) * 2 ^ 18 * 100, (b4 &&& 0xF0) >>> 4, b4 &&& 0x0F⟩ =
      [w >>> 24 % 256, w >>> 16 % 256, w >>> 8 % 256, w % 256, b4] := by
  have hwpos : (0 : ℤ) < (w : ℤ) := by
    exact_mod_cast Nat.pos_of_ne_zero hw0
  have htd : (w : ℤ) * 2 ^ 18 * 100 ≠ 0 := by
    positivity
  rw [childBlock_bytes_form _ htd]
  have hword :
      ChildBlock.word ⟨false, (w : ℤ) * 2 ^ 18 * 100, (b4 &&& 0xF0) >>> 4, b4 &&& 0x0F⟩ =
        w := by
    unfold ChildBlock.word
    rw [if_neg (by simp), quantTicks_false _ _ _ hw]
  rw [hword, (byte4_ops b4 hb4).2.2]

/-! ## C7: child-block encode/parse round trip -/

/-- C7: parsing the 5-byte wire encoding of any child block with non-zero
`TimeDifference` and 4-bit `RandomNum` and `SequenceCount` values returns a
block equal to it in `TimeFlag`, `RandomNum` and `SequenceCount`, and whose
`TimeDifference` is the block's 31-bit quantized value (not the
pre-quantization input). -/
theorem parseChildBlock_roundTrip (b : ChildBlock) (htd : b.TimeDifference ≠ 0)
    (hr : b.RandomNum < 16) (hs : b.SequenceCount < 16) :
    ParseChildBlock b.Bytes =
      .ok ⟨b.TimeFlag, b.quantized, b.RandomNum, b.SequenceCount⟩ := by
  obtain ⟨tf, td, r, s⟩ := b
  simp only at htd hr hs
  have hqt := quantTicks_lt ⟨tf, td, r, s⟩
  rw [childBlock_bytes_form _ htd, byte4_pack r s hr hs]
  cases tf
  · have hwq : ChildBlock.word ⟨false, td, r, s⟩ = ChildBlock.quantTicks ⟨false, td, r, s⟩ := by
      simp [ChildBlock.word]
    rw [hwq, (parseChildBlock_word_flag _ _ hqt).2,
      (nibbles r s hr hs).1, (nibbles r s hr hs).2]
    simp [ChildBlock.quantized, ChildBlock.quantTicks, Nat.shiftLeft_eq]
  · have hwq : ChildBlock.word ⟨true, td, r, s⟩ =
        2 ^ 31 + ChildBlock.quantTicks ⟨true, td, r, s⟩ := by
      simp [ChildBlock.word]
    rw [hwq, (parseChildBlock_word_flag _ _ hqt).1,
      (nibbles r s hr hs).1, (nibbles r s hr hs).2]
    simp [ChildBlock.quantized, ChildBlock.quantTicks, Nat.shiftLeft_eq]

/-- C7 witness at the repository's own test vector block
`{TimeFlag = false, TimeDifference = 1373896704000 ns, RandomNum = 3,
SequenceCount = 0}` (wire hex 0000CCBA30). -/
theorem parseChildBlock_roundTrip_witness :
    ParseChildBlock (ChildBlock.Bytes ⟨false, 1373896704000, 3, 0⟩) =
      .ok ⟨false, ChildBlock.quantized ⟨false, 1373896704000, 3, 0⟩, 3, 0⟩ :=
  parseChildBlock_roundTrip ⟨false, 1373896704000, 3, 0⟩ (by decide) (by decide) (by decide)

/-! ## C10: wire-level decode/encode round trip for 5-byte blocks -/

/-- C10: for every 5-byte input whose 31-bit time-delta field (bits 38..8)
is non-zero, parsing succeeds and re-encoding the parsed block reproduces
the five bytes exactly; when that field is zero, parsing still succeeds but
the re-encoding is the empty byte sequence. -/
theorem parseChildBlock_wire_roundTrip (b0 b1 b2 b3 b4 : ℕ)
    (h0 : b0 < 256) (h1 : b1 < 256) (h2 : b2 < 256) (h3 : b3 < 256) (h4 : b4 < 256) :
    (beUint32 b0 b1 b2 b3 &&& 0x7fffffff ≠ 0 →
      ∃ blk, ParseChildBlock [b0, b1, b2, b3, b4] = .ok blk ∧
        blk.Bytes = [b0, b1, b2, b3, b4]) ∧
    (beUint32 b0 b1 b2 b3 &&& 0x7fffffff = 0 →
      ∃ blk, ParseChildBlock [b0, b1, b2, b3, b4] = .ok blk ∧ blk.Bytes = []) := by
  have hB32 : beUint32 b0 b1 b2 b3 < 2 ^ 32 := by
    unfold beUint32
    omega
  have hmask : beUint32 b0 b1 b2 b3 &&& 0x7fffffff = beUint32 b0 b1 b2 b3 % 2 ^ 31 :=
    and_mask31 _
  by_cases hflag : 128 ≤ b0
  · have hge : 2 ^ 31 ≤ beUint32 b0 b1 b2 b3 := by
      unfold beUint32
      omega
    have hBw : beUint32 b0 b1 b2 b3 = 2 ^ 31 + beUint32 b0 b1 b2 b3 % 2 ^ 31 := by
      omega
    set w := beUint32 b0 b1 b2 b3 % 2 ^ 31 with hwdef
    have hw : w < 2 ^ 31 := Nat.mod_lt _ (by positivity)
    have f0 : (2 ^ 31 + w) >>> 24 % 256 = b0 := by
      rw [← hBw]
      unfold beUint32
      rw [Nat.shiftRight_eq_div_pow]
      omega
    have f1 : (2 ^ 31 + w) >>> 16 % 256 = b1 := by
      rw [← hBw]
      unfold beUint32
      rw [Nat.shiftRight_eq_div_pow]
      omega
    have f2 : (2 ^ 31 + w) >>> 8 % 256 = b2 := by
      rw [← hBw]
      unfold beUint32
      rw [Nat.shiftRight_eq_div_pow]
      omega
    have f3 : (2 ^ 31 + w) % 256 = b3 := by
      rw [← hBw]
      unfold beUint32
      omega
    have hparse := (parseChildBlock_word_flag w b4 hw).1
    rw [f0, f1, f2, f3] at hparse
    constructor
    · intro hne
      rw [hmask] at hne
      exact ⟨_, hparse, by rw [bytes_of_parsed_true w b4 hw hne h4, f0, f1, f2, f3]⟩
    · intro hzero
      rw [hmask] at hzero
      refine ⟨_, hparse, ?_⟩
      rw [hzero]
      simp [ChildBlock.Bytes]
  · have hlt31 : beUint32 b0 b1 b2 b3 < 2 ^ 31 := by
      unfold beUint32
      omega
    have hBw : beUint32 b0 b1 b2 b3 % 2 ^ 31 = beUint32 b0 b1 b2 b3 :=
      Nat.mod_eq_of_lt hlt31
    have f0 : beUint32 b0 b1 b2 b3 >>> 24 % 256 = b0 := by
      unfold beUint32
      rw [Nat.shiftRight_eq_div_pow]
      omega
    have f1 : beUint32 b0 b1 b2 b3 >>> 16 % 256 = b1 := by
      unfold beUint32
      rw [Nat.shiftRight_eq_div_pow]
      omega
    have f2 : beUint32 b0 b1 b2 b3 >>> 8 % 256 = b2 := by
      unfold beUint32
      rw [Nat.shiftRight_eq_div_pow]
      omega
    have f3 : beUint32 b0 b1 b2 b3 % 256 = b3 := by
      unfold beUint32
      omega
    have hparse := (parseChildBlock_word_flag (beUint32 b0 b1 b2 b3) b4 hlt31).2
    rw [f0, f1, f2, f3] at hparse
    constructor
    · intro hne
      rw [hmask, hBw] at hne
      exact ⟨_, hparse,
        by rw [bytes_of_parsed_false (beUint32 b0 b1 b2 b3) b4 hlt31 hne h4, f0, f1, f2, f3]⟩
    · intro hzero
      rw [hmask, hBw] at hzero
      refine ⟨_, hparse, ?_⟩
      rw [hzero]
      simp [ChildBlock.Bytes]

/-- C10 witness: the 5-byte input 00 00 01 00 07 has a non-zero time field
and round-trips exactly through parse and re-encode. -/
theorem parseChildBlock_wire_roundTrip_witness :
    ∃ blk, ParseChildBlock [0, 0, 1, 0, 7] = .ok blk ∧ blk.Bytes = [0, 0, 1, 0, 7] :=
  (parseChildBlock_wire_roundTrip 0 0 1 0 7 (by norm_num) (by norm_num) (by norm_num)
    (by norm_num) (by norm_num)).1 (by decide)

/-! ## Base64 helper lemmas -/

theorem b64Val_b64Char : ∀ n < 64, b64Val (b64Char n) = some n ∧ b64Char n ≠ 61 := by decide

theorem b64Char_lt (n : ℕ) (h : n < 64) : b64Char n < 128 := by
  unfold b64Char
  split_ifs <;> omega

theorem encode_length (l : List ℕ) : (encodeBase64 l).length = 4 * ((l.length + 2) / 3) := by
  induction l using encodeBase64.induct with
  | case1 => rfl
  | case2 a => simp [encodeBase64]
  | case3 a b => simp [encodeBase64]
  | case4 a b c rest ih =>
    simp only [encodeBase64, List.length_cons, ih]
    omega

theorem decode_encode (l : List ℕ) (hl : ∀ x ∈ l, x < 256) :
    decodeBase64 (encodeBase64 l) = some l := by
  induction l using encodeBase64.induct with
  | case1 => rfl
  | case2 a =>
    have ha : a < 256 := hl a (by simp)
    have hv0 := (b64Val_b64Char (a * 65536 / 262144) (by omega)).1
    have hv1 := (b64Val_b64Char (a * 65536 / 4096 % 64) (by omega)).1
    simp [encodeBase64, decodeBase64, hv0, hv1]
    omega
  | case3 a b =>
    have ha : a < 256 := hl a (by simp)
    have hb : b < 256 := hl b (by simp)
    have hv0 := (b64Val_b64Char ((a * 65536 + b * 256) / 262144) (by omega)).1
    have hv1 := (b64Val_b64Char ((a * 65536 + b * 256) / 4096 % 64) (by omega)).1
    have hv2 := (b64Val_b64Char ((a * 65536 + b * 256) / 64 % 64) (by omega)).1
    have hne2 := (b64Val_b64Char ((a * 65536 + b * 256) / 64 % 64) (by omega)).2
    simp [encodeBase64, decodeBase64, hv0, hv1, hv2, hne2]
    omega
  | case4 a b c rest ih =>
    have ha : a < 256 := hl a (by simp)
    have hb : b < 256 := hl b (by simp)
    have hc : c < 256 := hl c (by simp)
    have hrest : ∀ x ∈ rest, x < 256 := fun x hx => hl x (by simp [hx])
    have hv0 := (b64Val_b64Char ((a * 65536 + b * 256 + c) / 262144) (by omega)).1
    have hv1 := (b64Val_b64Char ((a * 65536 + b * 256 + c) / 4096 % 64) (by omega)).1
    have hv2 := (b64Val_b64Char ((a * 65536 + b * 256 + c) / 64 % 64) (by omega)).1
    have hv3 := (b64Val_b64Char ((a * 65536 + b * 256 + c) % 64) (by omega)).1
    have hne2 := (b64Val_b64Char ((a * 65536 + b * 256 + c) / 64 % 64) (by omega)).2
    have hne3 := (b64Val_b64Char ((a * 65536 + b * 256 + c) % 64) (by omega)).2
    simp [encodeBase64, decodeBase64, hv0, hv1, hv2, hv3, hne2, hne3, ih hrest]
    omega

/-! ## Child-block loop lemmas -/

theorem parseChildBlock_len5 (s : List ℕ) (h : s.length = 5) :
    ∃ b, ParseChildBlock s = BlockResult.ok b := by
  rcases s with _ | ⟨a, _ | ⟨b, _ | ⟨c, _ | ⟨d, _ | ⟨e, _ | ⟨f, s⟩⟩⟩⟩⟩⟩ <;>
    simp_all [ParseChildBlock]

theorem parseChildBlocks_ok : ∀ n (r : List ℕ), r.length = n → ∀ slack k,
    r.length % 5 = 0 ∨ 5 * (500 - k) ≤ r.length →
    ∃ bs, parseChildBlocks slack k r = .ok bs ∧ bs.length = min (r.length / 5) (500 - k) := by
  intro n
  induction n using Nat.strong_induction_on with
  | _ n ih =>
    intro r hr slack k hcase
    by_cases h0 : r = [] ∨ 500 ≤ k
    · refine ⟨[], by rw [parseChildBlocks, if_pos h0], ?_⟩
      rcases h0 with h | h
      · subst h
        simp
      · simp only [List.length_nil]
        omega
    · push_neg at h0
      obtain ⟨hne, hk⟩ := h0
      have hlen0 : r.length ≠ 0 := by
        simpa [List.length_eq_zero] using hne
      have hlen5 : 5 ≤ r.length := by
        rcases hcase with h | h <;> omega
      obtain ⟨b, hb⟩ := parseChildBlock_len5 (r.take 5) (by rw [List.length_take]; omega)
      obtain ⟨bs, hbs, hlbs⟩ := ih (n - 5) (by omega) (r.drop 5)
        (by rw [List.length_drop]; omega) slack (k + 1)
        (by rw [List.length_drop]; omega)
      refine ⟨b :: bs, ?_, ?_⟩
      · rw [parseChildBlocks, if_neg (by push_neg; exact ⟨hne, by omega⟩), if_pos hlen5, hb, hbs]
      · rw [List.length_cons, hlbs, List.length_drop]
        omega

theorem parseChildBlocks_panic : ∀ n (r : List ℕ), r.length = n → ∀ slack k, k < 500 →
    r.length % 5 ≠ 0 → r.length < 5 * (500 - k) → r.length % 5 + slack < 5 →
    parseChildBlocks slack k r = .error "runtime error: slice bounds out of range" := by
  intro n
  induction n using Nat.strong_induction_on with
  | _ n ih =>
    intro r hr slack k hk hmod hbound hslack
    have hne : r ≠ [] := by
      intro h
      subst h
      simp at hmod
    rw [parseChildBlocks, if_neg (by push_neg; exact ⟨hne, by omega⟩)]
    by_cases h5 : 5 ≤ r.length
    · rw [if_pos h5]
      obtain ⟨b, hb⟩ := parseChildBlock_len5 (r.take 5) (by rw [List.length_take]; omega)
      rw [hb,
        ih (n - 5) (by omega) (r.drop 5) (by rw [List.length_drop]; omega) slack (k + 1)
          (by omega) (by rw [List.length_drop]; omega) (by rw [List.length_drop]; omega)
          (by rw [List.length_drop]; omega)]
    · rw [if_neg h5, if_neg (by omega)]

theorem parseChildBlocks_slackOk : ∀ n (r : List ℕ), r.length = n → ∀ slack k, k < 500 →
    r.length % 5 ≠ 0 → r.length < 5 * (500 - k) → 5 ≤ r.length % 5 + slack →
    ∃ bs, parseChildBlocks slack k r = .ok bs ∧ bs.length = r.length / 5 + 1 := by
  intro n
  induction n using Nat.strong_induction_on with
  | _ n ih =>
    intro r hr slack k hk hmod hbound hslack
    have hne : r ≠ [] := by
      intro h
      subst h
      simp at hmod
    by_cases h5 : 5 ≤ r.length
    · obtain ⟨b, hb⟩ := parseChildBlock_len5 (r.take 5) (by rw [List.length_take]; omega)
      obtain ⟨bs, hbs, hlbs⟩ := ih (n - 5) (by omega) (r.drop 5)
        (by rw [List.length_drop]; omega) slack (k + 1) (by omega)
        (by rw [List.length_drop]; omega) (by rw [List.length_drop]; omega)
        (by rw [List.length_drop]; omega)
      refine ⟨b :: bs, ?_, ?_⟩
      · rw [parseChildBlocks, if_neg (by push_neg; exact ⟨hne, by omega⟩), if_pos h5, hb, hbs]
      · rw [List.length_cons, hlbs, List.length_drop]
        omega
    · have hlen0 : r.length ≠ 0 := by
        simpa [List.length_eq_zero] using hne
      obtain ⟨b, hb⟩ := parseChildBlock_len5 (r ++ List.replicate (5 - r.length) 0)
        (by rw [List.length_append, List.length_replicate]; omega)
      refine ⟨[b], ?_, ?_⟩
      · rw [parseChildBlocks, if_neg (by push_neg; exact ⟨hne, by omega⟩), if_neg h5,
          if_pos (by omega), hb,
          show r.drop 5 = [] from List.drop_eq_nil_of_le (by omega),
          parseChildBlocks, if_pos (Or.inl rfl)]
      · simp only [List.length_cons, List.length_nil]
        omega

/-! ## Thread-parse reduction on encoder output -/

/-- Parsing the token of an arbitrary payload of at least 22 bytes: the
length precheck and base64 decode succeed, the header fields are read from
the payload, and the result is determined by the child-block loop, run with
the capacity slack of the decode buffer. -/
theorem parseEmailThread_encode (payload : List ℕ) (topic : String)
    (hb : ∀ x ∈ payload, x < 256) (hlen : 22 ≤ payload.length) :
    ParseEmailThread (encodeBase64 payload) topic =
      match parseChildBlocks ((encodeBase64 payload).length / 4 * 3 - payload.length) 0
          (payload.drop 22) with
      | .error m => .panicked m
      | .ok blocks =>
        .ok ⟨toInt64 (TimeStampToUnix (beUint64 (payload.take 6 ++ [0, 0]))),
          (payload.drop 6).take 16, topic, blocks⟩ := by
  have hElen : ¬(encodeBase64 payload).length < 22 := by
    rw [encode_length]
    omega
  have h6 : ¬payload.length < 6 := by omega
  have h22 : ¬payload.length < 22 := by omega
  simp only [ParseEmailThread, decode_encode payload hb, hElen, if_false, h6, h22]

/-! ## C1: failure reporting of thread-token parsing -/

/-- C1 counterexample: on the empty token (shorter than the minimum header
length) `ParseEmailThread` panics — a fatal abort, not a recoverable error
result returned to the caller. -/
theorem parseEmailThread_cex :
    ParseEmailThread [] "" =
      .panicked "Inavlid Thread-Index. Expected minimum 22 bytes." := rfl

/-- C1 (amended): every token shorter than 22 bytes makes `ParseEmailThread`
panic with the minimum-length message; parsing failures abort instead of
being returned as recoverable errors, and the caller receives no partial
Thread only because the function never returns normally on failure. -/
theorem parseEmailThread_short_panics (idx : List ℕ) (topic : String)
    (h : idx.length < 22) :
    ParseEmailThread idx topic =
      .panicked "Inavlid Thread-Index. Expected minimum 22 bytes." := by
  unfold ParseEmailThread
  rw [if_pos h]

/-- C1 witness at a concrete one-byte token. -/
theorem parseEmailThread_short_panics_witness :
    ParseEmailThread [0] "x" =
      .panicked "Inavlid Thread-Index. Expected minimum 22 bytes." :=
  parseEmailThread_short_panics [0] "x" (by norm_num)

/-! ## C5: child-block chunking of the decoded payload -/

/-- C5 counterexample: a token whose payload decodes to 23 bytes (a 22-byte
header plus one trailing byte; the token carries one padding character, so
the decode buffer has a single byte of capacity slack — not enough for a
5-byte slice over the 1-byte remainder) makes parsing panic on the
out-of-bounds slice instead of leaving the remainder unconsumed. -/
theorem parseEmailThread_trailing_cex :
    ParseEmailThread (encodeBase64 (List.replicate 23 0)) "" =
      .panicked "runtime error: slice bounds out of range" := by
  rw [parseEmailThread_encode (List.replicate 23 0) ""
      (fun x hx => by rw [List.eq_of_mem_replicate hx]; norm_num) (by simp),
    parseChildBlocks_panic ((List.replicate 23 (0 : ℕ)).drop 22).length _ rfl
      ((encodeBase64 (List.replicate 23 (0 : ℕ))).length / 4 * 3 -
        (List.replicate 23 (0 : ℕ)).length) 0
      (by norm_num) (by simp) (by simp) (by simp [encode_length])]

/-- C5 (amended): for a payload of n ≥ 22 bytes, parsing yields exactly
min((n-22)/5, 500) child blocks when n-22 is a multiple of 5 or n ≥ 2522.
When n < 2522 and the remainder r = (n-22) % 5 is non-zero, the remainder
is not simply left unconsumed: the final `bytes[i:i+5]` slice extends past
the decoded length but is bounded by the decode buffer's *capacity*, which
carries s = 3*⌈n/3⌉ - n zero-valued slack bytes (one per `=` padding
character of the token).  When r + s ≥ 5 the slice succeeds, the remainder
is consumed into one extra zero-padded child block and parsing returns
(n-22)/5 + 1 blocks; when r + s < 5 (in particular always for r ∈ {1,2})
parsing panics with a slice-bounds error. -/
theorem parseEmailThread_childCount (payload : List ℕ) (topic : String)
    (hb : ∀ x ∈ payload, x < 256) (hlen : 22 ≤ payload.length) :
    ((payload.length - 22) % 5 = 0 ∨ 2522 ≤ payload.length →
      ∃ t, ParseEmailThread (encodeBase64 payload) topic = .ok t ∧
        t.ChildBlocks.length = min ((payload.length - 22) / 5) 500) ∧
    (payload.length < 2522 ∧ (payload.length - 22) % 5 ≠ 0 ∧
        5 ≤ (payload.length - 22) % 5 + (3 * ((payload.length + 2) / 3) - payload.length) →
      ∃ t, ParseEmailThread (encodeBase64 payload) topic = .ok t ∧
        t.ChildBlocks.length = (payload.length - 22) / 5 + 1) ∧
    (payload.length < 2522 ∧ (payload.length - 22) % 5 ≠ 0 ∧
        (payload.length - 22) % 5 + (3 * ((payload.length + 2) / 3) - payload.length) < 5 →
      ParseEmailThread (encodeBase64 payload) topic =
        .panicked "runtime error: slice bounds out of range") := by
  rw [parseEmailThread_encode payload topic hb hlen]
  have hslack : (encodeBase64 payload).length / 4 * 3 - payload.length =
      3 * ((payload.length + 2) / 3) - payload.length := by
    rw [encode_length]
    omega
  rw [hslack]
  refine ⟨?_, ?_, ?_⟩
  · intro hcase
    obtain ⟨bs, hbs, hlbs⟩ := parseChildBlocks_ok (payload.drop 22).length _ rfl
      (3 * ((payload.length + 2) / 3) - payload.length) 0
      (by rw [List.length_drop]; omega)
    rw [hbs]
    refine ⟨_, rfl, ?_⟩
    show bs.length = _
    rw [hlbs, List.length_drop]
  · intro hcase
    obtain ⟨bs, hbs, hlbs⟩ := parseChildBlocks_slackOk (payload.drop 22).length _ rfl
      (3 * ((payload.length + 2) / 3) - payload.length) 0 (by norm_num)
      (by rw [List.length_drop]; omega) (by rw [List.length_drop]; omega)
      (by rw [List.length_drop]; omega)
    rw [hbs]
    refine ⟨_, rfl, ?_⟩
    show bs.length = _
    rw [hlbs, List.length_drop]
  · intro hcase
    rw [parseChildBlocks_panic (payload.drop 22).length _ rfl
      (3 * ((payload.length + 2) / 3) - payload.length) 0 (by norm_num)
      (by rw [List.length_drop]; omega) (by rw [List.length_drop]; omega)
      (by rw [List.length_drop]; omega)]

/-- C5 witness: a 27-byte payload (exact multiple of 5 past the header)
parses to one child block; a 26-byte payload (4-byte remainder, token
padded with one `=` hence one slack byte) parses to one zero-padded extra
block; a 24-byte payload (2-byte remainder, unpadded token, no slack)
panics. -/
theorem parseEmailThread_childCount_witness :
    (∃ t, ParseEmailThread (encodeBase64 (List.replicate 27 0)) "t" = .ok t ∧
      t.ChildBlocks.length = min (((List.replicate 27 (0 : ℕ)).length - 22) / 5) 500) ∧
    (∃ t, ParseEmailThread (encodeBase64 (List.replicate 26 0)) "t" = .ok t ∧
      t.ChildBlocks.length = ((List.replicate 26 (0 : ℕ)).length - 22) / 5 + 1) ∧
    ParseEmailThread (encodeBase64 (List.replicate 24 0)) "t" =
      .panicked "runtime error: slice bounds out of range" :=
  ⟨(parseEmailThread_childCount (List.replicate 27 0) "t"
      (fun x hx => by rw [List.eq_of_mem_replicate hx]; norm_num) (by simp)).1 (by simp),
    (parseEmailThread_childCount (List.replicate 26 0) "t"
      (fun x hx => by rw [List.eq_of_mem_replicate hx]; norm_num) (by simp)).2.1 (by simp),
    (parseEmailThread_childCount (List.replicate 24 0) "t"
      (fun x hx => by rw [List.eq_of_mem_replicate hx]; norm_num) (by simp)).2.2 (by simp)⟩

/-! ## Thread payload helper lemmas -/

theorem childBlock_bytes_lt (b : ChildBlock) : ∀ x ∈ b.Bytes, x < 256 := by
  intro x hx
  unfold ChildBlock.Bytes at hx
  split_ifs at hx
  · simp at hx
  all_goals
    simp only [List.mem_cons, List.not_mem_nil, or_false] at hx
    rcases hx with rfl | rfl | rfl | rfl | rfl <;>
      first
        | exact Nat.mod_lt _ (by norm_num)
        | exact @Nat.or_lt_two_pow _ _ 8 (Nat.mod_lt _ (by norm_num))
            (Nat.mod_lt _ (by norm_num))

theorem blocks_flatten_mod5 (blocks : List ChildBlock) :
    (blocks.map ChildBlock.Bytes).flatten.length % 5 = 0 := by
  induction blocks with
  | nil => rfl
  | cons b bs ih =>
    simp only [List.map_cons, List.flatten_cons, List.length_append]
    by_cases h : b.TimeDifference = 0
    · have hb : b.Bytes = [] := by
        unfold ChildBlock.Bytes
        rw [if_pos h]
      rw [hb]
      simpa using ih
    · have hb : b.Bytes.length = 5 := by
        unfold ChildBlock.Bytes
        rw [if_neg h]
        rfl
      rw [hb]
      omega

theorem beUint64_top6 (N : ℕ) (h : N < 2 ^ 64) :
    beUint64 ((be8 N).take 6 ++ [0, 0]) = N - N % 65536 := by
  simp [be8, beUint64]
  omega

/-! ## C3: thread serialize/parse round trip from explicit parameters -/

set_option maxRecDepth 100000 in
/-- C3 counterexample: the thread built from timestamp 1357146064168557000,
an all-zero identifier and no child blocks parses back from its own token
with timestamp 1357146064168550400 — the identifier is preserved but the
timestamp is not equal to the original. -/
theorem parseEmailThread_params_cex :
    (ParseEmailThread (Thread.Bytes (NewEmailThreadFromParams 1357146064168557000
        (List.replicate 16 0) "t" [])) "t" =
      .ok ⟨1357146064168550400, List.replicate 16 0, "t", []⟩) ∧
      (1357146064168550400 : ℤ) ≠ 1357146064168557000 := by
  constructor
  · rw [show Thread.Bytes (NewEmailThreadFromParams 1357146064168557000
          (List.replicate 16 0) "t" []) =
        encodeBase64 (Thread.payload (NewEmailThreadFromParams 1357146064168557000
          (List.replicate 16 0) "t" [])) from rfl,
      parseEmailThread_encode _ "t" (by decide) (by decide)]
    rw [show (Thread.payload (NewEmailThreadFromParams 1357146064168557000
        (List.replicate 16 0) "t" [])).drop 22 = [] from by decide]
    rw [parseChildBlocks, if_pos (Or.inl rfl)]
    decide
  · decide

set_option maxRecDepth 40000 in
/-- C3 (amended): for a thread built from explicit parameters with a
non-degenerate timestamp, parsing its token preserves the identifier
exactly, but reproduces the timestamp only at the 6-byte FILETIME precision
of the wire format: the low 16 bits of the 100ns tick count (and any
sub-100ns remainder) are dropped, so the parsed timestamp is the tick count
truncated to a multiple of 65536 ticks, converted back to nanoseconds. -/
theorem parseEmailThread_params_roundTrip (d : ℤ) (g : List ℕ) (topic topic2 : String)
    (blocks : List ChildBlock) (hg : g.length = 16) (hgb : ∀ x ∈ g, x < 256)
    (hd0 : 6553600 ≤ d) (hd1 : d < 2 ^ 63) :
    ∃ t, ParseEmailThread (Thread.Bytes (NewEmailThreadFromParams d g topic blocks)) topic2 =
        .ok t ∧
      t.guid = g ∧
      t.DateUnixNano =
        (Int.tdiv d 100 + 116444736000000000 -
          (Int.tdiv d 100 + 116444736000000000) % 65536 - 116444736000000000) * 100 := by
  have htdiv : Int.tdiv d 100 = d / 100 := Int.tdiv_eq_ediv (by omega) (by norm_num)
  set tnZ : ℤ := Int.tdiv d 100 + 116444736000000000 with htnZ
  have htnZ2 : tnZ = d / 100 + 116444736000000000 := by
    rw [htnZ, htdiv]
  have htn0 : 116444736000000000 + 65536 ≤ tnZ := by
    rw [htnZ2]
    omega
  have htn1 : tnZ < 2 ^ 63 := by
    rw [htnZ2]
    omega
  set N : ℕ := toUInt64 tnZ with hN
  have hNZ : (N : ℤ) = tnZ := by
    rw [hN]
    unfold toUInt64
    rw [Int.emod_eq_of_lt (by omega) (by omega)]
    exact Int.toNat_of_nonneg (by omega)
  have hN64 : N < 2 ^ 64 := by omega
  have hNd : (N : ℤ) ≤ d / 100 + 116444736000000000 := by
    rw [hNZ, htnZ2]
  have hpay : Thread.payload (NewEmailThreadFromParams d g topic blocks) =
      (be8 N).take 6 ++ (g ++ (blocks.map ChildBlock.Bytes).flatten) := by
    simp only [Thread.payload, NewEmailThreadFromParams, IntToBytes, List.append_assoc]
    rw [show UnixToTimeStamp64 d = tnZ from rfl, ← hN]
  have hp6 : ((be8 N).take 6).length = 6 := by simp [be8]
  have hpb : ∀ x ∈ Thread.payload (NewEmailThreadFromParams d g topic blocks), x < 256 := by
    rw [hpay]
    intro x hx
    rcases List.mem_append.1 hx with h | h
    · have hx2 : x ∈ be8 N := List.take_subset _ _ h
      simp only [be8, List.mem_cons, List.not_mem_nil, or_false] at hx2
      rcases hx2 with rfl | rfl | rfl | rfl | rfl | rfl | rfl | rfl <;>
        exact Nat.mod_lt _ (by norm_num)
    · rcases List.mem_append.1 h with h2 | h2
      · exact hgb x h2
      · obtain ⟨l, hl, hxl⟩ := List.mem_flatten.1 h2
        obtain ⟨bb, hbb, rfl⟩ := List.mem_map.1 hl
        exact childBlock_bytes_lt bb x hxl
  have hplen : 22 ≤ (Thread.payload (NewEmailThreadFromParams d g topic blocks)).length := by
    rw [hpay]
    simp only [List.length_append, hp6, hg]
    omega
  rw [show Thread.Bytes (NewEmailThreadFromParams d g topic blocks) =
      encodeBase64 (Thread.payload (NewEmailThreadFromParams d g topic blocks)) from rfl,
    parseEmailThread_encode _ topic2 hpb hplen]
  have hdrop22 : (Thread.payload (NewEmailThreadFromParams d g topic blocks)).drop 22 =
      (blocks.map ChildBlock.Bytes).flatten := by
    rw [hpay, ← List.append_assoc]
    exact List.drop_left' (by simp [hp6, hg])
  obtain ⟨bs, hbs, _⟩ := parseChildBlocks_ok
    ((Thread.payload (NewEmailThreadFromParams d g topic blocks)).drop 22).length _ rfl
    ((encodeBase64 (Thread.payload (NewEmailThreadFromParams d g topic blocks))).length / 4 * 3 -
      (Thread.payload (NewEmailThreadFromParams d g topic blocks)).length) 0
    (Or.inl (by rw [hdrop22]; exact blocks_flatten_mod5 blocks))
  rw [hbs]
  refine ⟨_, rfl, ?_, ?_⟩
  · show ((Thread.payload (NewEmailThreadFromParams d g topic blocks)).drop 6).take 16 = g
    rw [hpay, List.drop_left' hp6, List.take_left' hg]
  · dsimp only
    rw [hpay, List.take_left' hp6, beUint64_top6 N hN64,
      @timeStampToUnix_eq (N - N % 65536) (by omega) (by omega) (by omega),
      toInt64_of_lt (by omega), ← hNZ]
    omega

/-- C3 witness at the concrete parameters of the counterexample. -/
theorem parseEmailThread_params_roundTrip_witness :
    ∃ t, ParseEmailThread (Thread.Bytes (NewEmailThreadFromParams 1357146064168557000
        (List.replicate 16 0) "t" [])) "t" = .ok t ∧
      t.guid = List.replicate 16 0 ∧
      t.DateUnixNano =
        (Int.tdiv 1357146064168557000 100 + 116444736000000000 -
          (Int.tdiv 1357146064168557000 100 + 116444736000000000) % 65536 -
          116444736000000000) * 100 :=
  parseEmailThread_params_roundTrip 1357146064168557000 (List.replicate 16 0) "t" "t" []
    (by simp) (fun x hx => by rw [List.eq_of_mem_replicate hx]; norm_num)
    (by norm_num) (by norm_num)

end Raweml
